import Mathlib

/-!
Verification development for the MIA contamination checker (`ccheck.cc`) and the
Myers O(N·D) approximate aligner (`myers_diff` in `myers_align.c`).

The definitions below are a shallow embedding of the C source:
pure C functions become Lean functions, C loops become fuel-indexed structural
recursion (with fuel chosen large enough to cover every terminating C run),
the stack table `v_` of `myers_diff` becomes an explicit partial map together
with a `junk` valuation that models whatever an uninitialised `int` cell of the
VLA happens to contain, and the caller-supplied output buffers become total
functions `ℤ → Char` (the caller's memory), so that out-of-bounds writes of the
traceback are observable.  `char_to_bitmap` is declared in `mia.h`, whose body
is not part of the sources at hand, and is therefore modelled from the spec.
-/

/-- Modelled from the spec: `char_to_bitmap` (declared in `mia.h`; its body is
not among the sources).  Nucleotide symbols are encoded as bitmasks over the
four bases A=1, C=2, G=4, T=8; `U` is treated as `T`; the standard IUPAC
ambiguity codes are the unions of their constituent bases; any other symbol
(including the gap `'-'`) maps to the empty mask, failing closed. -/
def char_to_bitmap (c : Char) : ℕ :=
  if c = 'A' ∨ c = 'a' then 1
  else if c = 'C' ∨ c = 'c' then 2
  else if c = 'G' ∨ c = 'g' then 4
  else if c = 'T' ∨ c = 't' ∨ c = 'U' ∨ c = 'u' then 8
  else if c = 'R' ∨ c = 'r' then 5
  else if c = 'Y' ∨ c = 'y' then 10
  else if c = 'S' ∨ c = 's' then 6
  else if c = 'W' ∨ c = 'w' then 9
  else if c = 'K' ∨ c = 'k' then 12
  else if c = 'M' ∨ c = 'm' then 3
  else if c = 'B' ∨ c = 'b' then 14
  else if c = 'D' ∨ c = 'd' then 13
  else if c = 'H' ∨ c = 'h' then 11
  else if c = 'V' ∨ c = 'v' then 7
  else if c = 'N' ∨ c = 'n' then 15
  else 0

/-- `match` from `myers_align.c`: two symbols match iff their bitmap encodings
share a set bit.  (Named `match_chars` because `match` is a Lean keyword.) -/
def match_chars (a b : Char) : Bool :=
  char_to_bitmap a &&& char_to_bitmap b ≠ 0

/-- `is_diagnostic` from `ccheck.cc`: an alignment column is diagnostic iff the
two symbols differ, neither is `N` and neither is a gap. -/
def is_diagnostic (c1 c2 : Char) : Bool :=
  c1 ≠ c2 ∧ c1 ≠ 'N' ∧ c2 ≠ 'N' ∧ c1 ≠ '-' ∧ c2 ≠ '-'

/-- `is_transversion` from `ccheck.cc`.  The C code clears bit 5 of each byte
(`a & ~32`, an ASCII upper-casing) and then, for a first symbol that
upper-cases to one of A, C, G, T, U, reports a transversion whenever the
second symbol is not the fixed transition partner of the first; any other
first symbol yields `false`. -/
def is_transversion (a b : Char) : Bool :=
  let u : Char := Char.ofNat (a.toNat &&& 0xDF)
  let v : Char := Char.ofNat (b.toNat &&& 0xDF)
  if u = 'A' then v ≠ 'G'
  else if u = 'C' then v ≠ 'T'
  else if u = 'G' then v ≠ 'A'
  else if u = 'T' ∨ u = 'U' then v ≠ 'C'
  else false

/-- `mk_dp_list` from `ccheck.cc`.  Walks the two gapped alignment rows from
their beginning while `span_from != span_to` and neither string is exhausted;
records every diagnostic column (optionally restricted to transversions) under
the key `span_from`, and increments `span_from` whenever the assembly-side
symbol is not a gap.  The `std::map` is represented as the list of
(key, (reference symbol, assembly symbol)) entries in insertion order, which
is strictly increasing key order, since a recorded column always advances the
counter before the next record. -/
def mk_dp_list (tv : Bool) : List Char → List Char → ℤ → ℤ → List (ℤ × Char × Char)
  | c1 :: r1, c2 :: r2, sFrom, sTo =>
    if sFrom = sTo then []
    else
      let rest := mk_dp_list tv r1 r2 (if c2 ≠ '-' then sFrom + 1 else sFrom) sTo
      if is_diagnostic c1 c2 ∧ (tv = false ∨ is_transversion c1 c2)
      then (sFrom, (c1, c2)) :: rest
      else rest
  | _, _, _, _ => []

/-- Modelled from the spec (claim-side reference definition): the
diagnostic-position index as §4.3 describes it.  A running assembly
coordinate starts at 0 at the beginning of the alignment and is incremented
whenever the assembly-side symbol is not a gap; a column is recorded, keyed by
its true assembly coordinate, exactly when that coordinate lies inside
`[sFrom, sTo)` and the column satisfies the diagnostic predicate. -/
def mk_dp_list_spec (tv : Bool) (aln1 aln2 : List Char) (sFrom sTo : ℤ) :
    List (ℤ × Char × Char) :=
  go aln1 aln2 0
where
  go : List Char → List Char → ℤ → List (ℤ × Char × Char)
    | c1 :: r1, c2 :: r2, coord =>
      let rest := go r1 r2 (if c2 ≠ '-' then coord + 1 else coord)
      if sFrom ≤ coord ∧ coord < sTo ∧ is_diagnostic c1 c2 ∧
          (tv = false ∨ is_transversion c1 c2)
      then (coord, (c1, c2)) :: rest
      else rest
    | _, _, _ => []

/-- `consistent` from `ccheck.cc`: a fragment symbol `y` is consistent with a
column symbol `x` if either is a gap, or the bitmaps intersect — where in
ancient-DNA mode `x` is first folded to its two-fold-degenerate code
(`G` to `R`, `C` to `Y`). -/
def consistent (adna : Bool) (x y : Char) : Bool :=
  let xf : Char := if x = 'G' then 'R' else if x = 'C' then 'Y' else x
  x = '-' ∨ y = '-' ∨ char_to_bitmap (if adna then xf else x) &&& char_to_bitmap y ≠ 0

/-- The deamination folding applied by `consistent` to its first argument. -/
def fold2 (c : Char) : Char :=
  if c = 'G' then 'R' else if c = 'C' then 'Y' else c

/-- The five classification outcomes of `ccheck.cc` (`enum whatsit`). -/
inductive whatsit where
  | unknown
  | clean
  | dirt
  | conflict
  | nonsense
deriving DecidableEq

open whatsit

/-- `merge_whatsit` from `ccheck.cc`. -/
def merge_whatsit (a b : whatsit) : whatsit :=
  if a = b then a
  else if a = unknown then b
  else if b = unknown then a
  else if a = nonsense ∨ b = nonsense then nonsense
  else conflict

/-- The sequential chain of five `if` statements updating `klass` at a
diagnostic position (`ccheck.cc`, main loop), given
`mc = maybe_clean` and `md = maybe_dirt`. -/
def updateKlass (mc md : Bool) (k0 : whatsit) : whatsit :=
  let k1 := if mc = true ∧ md = false ∧ k0 = unknown then clean else k0
  let k2 := if mc = true ∧ md = false ∧ k1 = dirt then conflict else k1
  let k3 := if mc = false ∧ md = true ∧ k2 = unknown then dirt else k2
  let k4 := if mc = false ∧ md = true ∧ k3 = clean then conflict else k3
  if mc = false ∧ md = false then nonsense else k4

/-- The vote update at a diagnostic position
(`if( maybe_dirt != maybe_clean ) votes++`). -/
def voteStep (mc md : Bool) (v : ℕ) : ℕ :=
  if md ≠ mc then v + 1 else v

/-- One iteration of the classification walk of `ccheck.cc` at a single
alignment column: `g1`/`g2` are the reference/assembly symbols of the global
alignment at this column, `refB`/`assB` the lifted reference resp. assembly
symbols facing the fragment, and `fragR`/`fragA` the fragment symbols in the
fragment-vs-reference resp. fragment-vs-assembly alignments.  At a diagnostic
column where the two fragment symbols agree, `maybe_clean`/`maybe_dirt` are
evaluated with `consistent` and the class and vote count are updated. -/
def classifyStep (adna : Bool) (g1 g2 refB assB fragR fragA : Char)
    (k : whatsit) (v : ℕ) : whatsit × ℕ :=
  if is_diagnostic g1 g2 then
    if fragR ≠ fragA then (k, v)
    else
      let mc := consistent adna assB fragA
      let md := consistent adna refB fragR
      (updateKlass mc md k, voteStep mc md v)
  else (k, v)

/-- The mutable per-run state of the fragment loop of `ccheck.cc`: the
per-class summary tally and the cache of `back` fragments keyed by id
(`std::map` as an association list). -/
structure CCState where
  summary : whatsit → ℕ
  bfrags : List (String × (whatsit × ℕ))

/-- Insert-or-assign on the association list, the behaviour of
`std::map::operator[]` followed by assignment. -/
def insertAssoc (id : String) (kv : whatsit × ℕ) :
    List (String × (whatsit × ℕ)) → List (String × (whatsit × ℕ))
  | [] => [(id, kv)]
  | (i, w) :: rest =>
    if i = id then (i, kv) :: rest else (i, w) :: insertAssoc id kv rest

/-- Lookup by id in the `back`-fragment cache. -/
def lookupAssoc (id : String) :
    List (String × (whatsit × ℕ)) → Option (whatsit × ℕ)
  | [] => none
  | (i, w) :: rest => if i = id then some w else lookupAssoc id rest

/-- Increment one class counter of the summary tally. -/
def bump (k : whatsit) (f : whatsit → ℕ) : whatsit → ℕ :=
  fun j => if j = k then f j + 1 else f j

/-- The `switch( (*s)->segment )` at the end of the fragment loop of
`ccheck.cc`: a `'b'` (back) fragment is stored in the cache and nothing else
happens; an `'f'` (front) fragment merges with its cached back half if one
exists and then — by fallthrough into the `'a'` case — is tallied; an `'a'`
(whole) fragment is tallied directly; any other tag is only reported. -/
def processFragment (st : CCState) (seg : Char) (id : String)
    (klass : whatsit) (votes : ℕ) : CCState :=
  if seg = 'b' then
    { st with bfrags := insertAssoc id (klass, votes) st.bfrags }
  else if seg = 'f' then
    let kv :=
      match lookupAssoc id st.bfrags with
      | none => (klass, votes)
      | some (bk, bv) => (merge_whatsit klass bk, votes + bv)
    { st with summary := bump kv.1 st.summary }
  else if seg = 'a' then
    { st with summary := bump klass st.summary }
  else st

/-- The three boundary modes of `myers_align.h` (`enum myers_align_mode`);
the source constructor names contain a word the project's naming rules
reserve, so the prefix-match modes are abbreviated `isPfx`/`hasPfx`. -/
inductive MyersMode where
  | globally
  | isPfx
  | hasPfx
deriving DecidableEq

/-- The per-diagonal furthest-reach table `v` of `myers_diff`, as a partial
map from (diagonal, distance) to the stored column; `none` is a cell of the
stack VLA that was never written. -/
def VTab : Type := ℤ → ℕ → Option ℤ

/-- Read `v[k][d]`: a written cell yields its value, an unwritten cell yields
whatever the uninitialised stack memory `junk` holds there. -/
def vread (junk : ℤ → ℕ → ℤ) (v : VTab) (k : ℤ) (d : ℕ) : ℤ :=
  (v k d).getD (junk k d)

/-- Write `v[k][d] = x`. -/
def vset (v : VTab) (k : ℤ) (d : ℕ) (x : ℤ) : VTab :=
  fun j e => if j = k ∧ e = d then some x else v j e

/-- `max3` from `myers_align.c`. -/
def max3 (a b c : ℤ) : ℤ :=
  if a < b then max b c else max a c

/-- Read `s[i]` of a C string: within range the stored character, at the index
just past the end the NUL terminator; any other index is memory the algorithm
only touches on junk-driven paths and is modelled as NUL as well. -/
def chAt (s : List Char) (i : ℤ) : Char :=
  if i < 0 then Char.ofNat 0 else s.getD i.toNat (Char.ofNat 0)

/-- The greedy snake of `myers_diff`:
`while( x < len_b && y < len_a && match( seq_b[x], seq_a[y] ) ) ++x, ++y`. -/
def snakeAux (a b : List Char) : ℕ → ℤ → ℤ → ℤ × ℤ
  | 0, x, y => (x, y)
  | fuel + 1, x, y =>
    if x < (b.length : ℤ) ∧ y < (a.length : ℤ) ∧ match_chars (chAt b x) (chAt a y)
    then snakeAux a b fuel (x + 1) (y + 1)
    else (x, y)

/-- Run the snake from `(x, y)`; the fuel `len_b - x` bounds the number of
`++x` steps of any terminating C run. -/
def snake (a b : List Char) (x y : ℤ) : ℤ × ℤ :=
  snakeAux a b ((b.length : ℤ) - x).toNat x y

/-- The furthest-reach candidate of `myers_diff` for diagonal `k` at distance
`d`, read off the previous level of the table exactly as the chain of
conditionals in the C source does. -/
def fr_x (junk : ℤ → ℕ → ℤ) (v : VTab) (d : ℕ) (k : ℤ) : ℤ :=
  if d = 0 then 0
  else if k = -(d : ℤ) then vread junk v (k + 1) (d - 1)
  else if k = -(d : ℤ) + 1 then
    max (vread junk v k (d - 1) + 1) (vread junk v (k + 1) (d - 1))
  else if k = (d : ℤ) then vread junk v (k - 1) (d - 1) + 1
  else if k = (d : ℤ) - 1 then
    max (vread junk v k (d - 1) + 1) (vread junk v (k - 1) (d - 1) + 1)
  else
    max3 (vread junk v (k - 1) (d - 1) + 1) (vread junk v k (d - 1) + 1)
      (vread junk v (k + 1) (d - 1))

/-- One output buffer during the traceback: the caller's memory around it, the
backward-moving cursor (`out_a`/`out_b`, as an offset from the buffer start)
and the list of offsets written so far (most recent first). -/
structure TBuf where
  mem : ℤ → Char
  cur : ℤ
  wr : List ℤ

/-- `*--out = c`. -/
def pushBuf (b : TBuf) (c : Char) : TBuf :=
  { mem := fun j => if j = b.cur - 1 then c else b.mem j
    cur := b.cur - 1
    wr := (b.cur - 1) :: b.wr }

/-- The backtrace loop `for( dd = d ; dd != 0 ; )` of `myers_diff`, walking
the table backwards from `(k, d)` and writing both gapped rows from the end of
their buffers.  The fuel covers every terminating C run; a junk-driven
non-terminating C loop is truncated when the fuel runs out. -/
def tbLoop (junk : ℤ → ℕ → ℤ) (v : VTab) (a b : List Char) :
    ℕ → ℕ → ℤ → ℤ → ℤ → TBuf → TBuf → ℤ × ℤ × TBuf × TBuf
  | 0, _, x, y, _, ba, bb => (x, y, ba, bb)
  | fuel + 1, dd, x, y, k, ba, bb =>
    if dd = 0 then (x, y, ba, bb)
    else if k ≠ -(dd : ℤ) ∧ k ≠ (dd : ℤ) ∧ x = vread junk v k (dd - 1) + 1 then
      tbLoop junk v a b fuel (dd - 1) (x - 1) (y - 1) k
        (pushBuf ba (chAt a (y - 1))) (pushBuf bb (chAt b (x - 1)))
    else if -(dd : ℤ) + 1 < k ∧ x = vread junk v (k - 1) (dd - 1) + 1 then
      tbLoop junk v a b fuel (dd - 1) (x - 1) y (k - 1)
        (pushBuf ba '-') (pushBuf bb (chAt b (x - 1)))
    else if k < (dd : ℤ) - 1 ∧ x = vread junk v (k + 1) (dd - 1) then
      tbLoop junk v a b fuel (dd - 1) x (y - 1) (k + 1)
        (pushBuf ba (chAt a (y - 1))) (pushBuf bb '-')
    else
      tbLoop junk v a b fuel dd (x - 1) (y - 1) k
        (pushBuf ba (chAt a (y - 1))) (pushBuf bb (chAt b (x - 1)))

/-- The trailing `while( x > 0 )` loop of the backtrace, copying the leading
snake (the source indexes both sequences with `x` here). -/
def tbTail (a b : List Char) : ℕ → ℤ → TBuf → TBuf → TBuf × TBuf
  | 0, _, ba, bb => (ba, bb)
  | fuel + 1, x, ba, bb =>
    if 0 < x then
      tbTail a b fuel (x - 1)
        (pushBuf ba (chAt a (x - 1))) (pushBuf bb (chAt b (x - 1)))
    else (ba, bb)

/-- `memmove( buf, buf + src, cnt )` with destination offset 0: the block
`[src, src + cnt)` is copied to `[0, cnt)`, the rest of memory is unchanged. -/
def memmove0 (buf : ℤ → Char) (src cnt : ℤ) : ℤ → Char :=
  fun j => if 0 ≤ j ∧ j < cnt then buf (src + j) else buf j

/-- The observable outcome of `myers_diff`: the returned distance (`none` is
the `UINT_MAX` overflow sentinel), the two buffer memories after the
traceback and the `memmove`s, the offsets written backwards into each buffer
before the `memmove` (most recent first), and the lengths of the two moved
blocks (the `memmove`s write exactly the offsets `[0, mvA)` resp. `[0, mvB)`). -/
structure MDResult where
  dist : Option ℕ
  memA : ℤ → Char
  memB : ℤ → Char
  wrA : List ℤ
  wrB : List ℤ
  mvA : ℤ
  mvB : ℤ

/-- The block of `myers_diff` that runs once the boundary condition holds at
`(k, d)` with furthest reach `(x, y)`: place the cursors one past
`len + d + 1`, write the two NUL terminators — the source writes both of them
through `out_a` —, run the backtrace, and `memmove` each used suffix to the
front of its buffer. -/
def finishAlign (junk : ℤ → ℕ → ℤ) (v : VTab) (a b : List Char) (d : ℕ)
    (k x y : ℤ) (memA memB : ℤ → Char) : MDResult :=
  let ca0 : TBuf := ⟨memA, (a.length : ℤ) + d + 1, []⟩
  let cb0 : TBuf := ⟨memB, (b.length : ℤ) + d + 1, []⟩
  let ca1 := pushBuf ca0 (Char.ofNat 0)
  let ca2 := pushBuf ca1 (Char.ofNat 0)
  let fuel := d + a.length + b.length + x.toNat + y.toNat + 8
  let r := tbLoop junk v a b fuel d x y k ca2 cb0
  let t := tbTail a b r.1.toNat r.1 r.2.2.1 r.2.2.2
  let cntA := (a.length : ℤ) + d + 1 - t.1.cur
  let cntB := (b.length : ℤ) + d + 1 - t.2.cur
  { dist := some d
    memA := memmove0 t.1.mem t.1.cur cntA
    memB := memmove0 t.2.mem t.2.cur cntB
    wrA := t.1.wr
    wrB := t.2.wr
    mvA := cntA
    mvB := cntB }

/-- The inner loop of `myers_diff` over the diagonals
`k = max(-d, -len_a) .. min(d, len_b)`: compute the furthest-reach candidate,
extend it along the snake, store it, and either finish (boundary condition of
`mode` met) or continue with the next diagonal.  Returns the updated table
when the level completes without finishing. -/
def kloop (junk : ℤ → ℕ → ℤ) (a b : List Char) (mode : MyersMode)
    (memA memB : ℤ → Char) (d : ℕ) :
    ℕ → ℤ → VTab → Sum MDResult VTab
  | 0, _, v => Sum.inr v
  | fuel + 1, k, v =>
    if min (d : ℤ) (b.length : ℤ) < k then Sum.inr v
    else
      let x0 := fr_x junk v d k
      let p := snake a b x0 (x0 - k)
      let w := vset v k d p.1
      if (mode = MyersMode.isPfx ∨ p.2 = (a.length : ℤ)) ∧
          (mode = MyersMode.hasPfx ∨ p.1 = (b.length : ℤ)) then
        Sum.inl (finishAlign junk w a b d k p.1 p.2 memA memB)
      else kloop junk a b mode memA memB d fuel (k + 1) w

/-- The outer loop of `myers_diff`, `for( d = 0 ; d != maxd ; ++d )`: the fuel
is the number of remaining `d` values, so the loop tries exactly the distances
`0 .. maxd - 1` and falls through to the `UINT_MAX` return when the fuel runs
out, exactly as the exclusive bound of the C loop does. -/
def dloop (junk : ℤ → ℕ → ℤ) (a b : List Char) (mode : MyersMode)
    (memA memB : ℤ → Char) : ℕ → ℕ → VTab → MDResult
  | 0, _, _ => ⟨none, memA, memB, [], [], 0, 0⟩
  | fuel + 1, d, v =>
    let kmin := max (-(d : ℤ)) (-(a.length : ℤ))
    let cnt := (min (d : ℤ) (b.length : ℤ) - kmin + 1).toNat
    match kloop junk a b mode memA memB d cnt kmin v with
    | Sum.inl r => r
    | Sum.inr w => dloop junk a b mode memA memB fuel (d + 1) w

/-- `myers_diff` from `myers_align.c`.  `junk` is the content of the
uninitialised cells of the stack table `v_`; `memA`/`memB` are the caller's
memories holding the output buffers `bt_a`/`bt_b` (offset 0 is the first
byte of the buffer).  `maxd` is first capped at `len_a + len_b`. -/
def myers_diff (junk : ℤ → ℕ → ℤ) (seq_a : List Char) (mode : MyersMode)
    (seq_b : List Char) (maxd : ℕ) (memA memB : ℤ → Char) : MDResult :=
  let md := min maxd (seq_a.length + seq_b.length)
  dloop junk seq_a seq_b mode memA memB md 0 (fun _ _ => none)

/-- Read the C string at the start of a buffer: the characters before the
first NUL, scanning no further than `cap` bytes. -/
def cstr (mem : ℤ → Char) (cap : ℕ) : List Char :=
  ((List.range cap).map (fun i => mem (i : ℤ))).takeWhile (fun c => c ≠ Char.ofNat 0)

/-- Remove every gap symbol from a gapped sequence. -/
def degap (s : List Char) : List Char :=
  s.filter (fun c => c ≠ '-')

/-- Modelled from the spec: the true edit distance between two sequences
under ambiguity-aware matching — the smallest number of insertions, deletions
and substitutions turning one into the other, a column consuming one symbol
of each side being free exactly when the symbols match under
`char_to_bitmap`.  Fuel-indexed; the fuel `len a + len b + 1` covers every
recursion path. -/
def levAmbF : ℕ → List Char → List Char → ℕ
  | 0, a, b => a.length + b.length
  | _ + 1, [], b => b.length
  | _ + 1, a :: r, [] => (a :: r).length
  | fuel + 1, a :: r, b :: s =>
    if match_chars a b then levAmbF fuel r s
    else 1 + min (levAmbF fuel r s) (min (levAmbF fuel (a :: r) s) (levAmbF fuel r (b :: s)))

/-- The ambiguity-aware edit distance (see `levAmbF`). -/
def levAmb (a b : List Char) : ℕ :=
  levAmbF (a.length + b.length + 1) a b

/-- Claim-side notion: a symbol denoting only purines (the bases A, G and the
purine ambiguity code R). -/
def isPurineCode (c : Char) : Bool :=
  c = 'A' ∨ c = 'G' ∨ c = 'R'

/-- Claim-side notion: a symbol denoting only pyrimidines
(C, T, U and the pyrimidine ambiguity code Y). -/
def isPyrimidineCode (c : Char) : Bool :=
  c = 'C' ∨ c = 'T' ∨ c = 'U' ∨ c = 'Y'

/-- Claim-side notion: the two symbols lie in different purine/pyrimidine
classes. -/
def classChange (a b : Char) : Bool :=
  (isPurineCode a ∧ isPyrimidineCode b) ∨ (isPyrimidineCode a ∧ isPurineCode b)

/-- IEEE-style addition on "defined or non-finite" values: any non-finite
operand propagates. -/
noncomputable def fadd : Option ℝ → Option ℝ → Option ℝ
  | some x, some y => some (x + y)
  | _, _ => none

/-- IEEE-style subtraction with propagation. -/
noncomputable def fsub : Option ℝ → Option ℝ → Option ℝ
  | some x, some y => some (x - y)
  | _, _ => none

/-- IEEE-style multiplication with propagation. -/
noncomputable def fmul : Option ℝ → Option ℝ → Option ℝ
  | some x, some y => some (x * y)
  | _, _ => none

/-- IEEE-style division: dividing by zero leaves the finite reals (NaN or an
infinity), modelled as `none`; non-finite operands propagate. -/
noncomputable def fdiv : Option ℝ → Option ℝ → Option ℝ
  | some x, some y => if y = 0 then none else some (x / y)
  | _, _ => none

/-- IEEE-style square root: NaN on negative arguments, propagation. -/
noncomputable def fsqrt : Option ℝ → Option ℝ
  | some x => if x < 0 then none else some (Real.sqrt x)
  | none => none

/-- The three values printed by the summary of `ccheck.cc` for the `dirt`
line — lower confidence bound, maximum-likelihood estimate and upper
confidence bound, each scaled to percent — computed exactly as the source
computes them (`z = 1.96`, `k = summary[dirt]`, `n = k + summary[clean]`,
`p_ = k/n`, `c = p_ + 0.5z²/n`, `w = z·sqrt(p_(1-p_)/n + 0.25z²/n²)`,
`d = 1 + z²/n`, printing `100(c-w)/d`, `100p_`, `100(c+w)/d`), over
division-by-zero-tracking values so that the NaN/infinity propagation of the
`n = 0` case is observable. -/
noncomputable def wilson_print (dirt clean : ℕ) : Option ℝ × Option ℝ × Option ℝ :=
  let z : Option ℝ := some 1.96
  let k : Option ℝ := some (dirt : ℝ)
  let n : Option ℝ := fadd k (some (clean : ℝ))
  let p := fdiv k n
  let c := fadd p (fdiv (fmul (fmul (some 0.5) z) z) n)
  let w := fmul z (fsqrt (fadd (fdiv (fmul p (fsub (some 1) p)) n)
    (fdiv (fmul (fmul (some 0.25) z) z) (fmul n n))))
  let dnm := fadd (some 1) (fdiv (fmul z z) n)
  (fmul (some 100) (fdiv (fsub c w) dnm),
   fmul (some 100) p,
   fmul (some 100) (fdiv (fadd c w) dnm))

/-- The lower Wilson bound `(c - w) / d` of `ccheck.cc` before the percent
scaling, as a function of the proportion `q = p_`, the quantile `z` and the
count `n`, over the exact reals. -/
noncomputable def wilsonLower (q z n : ℝ) : ℝ :=
  (q + 0.5 * z * z / n - z * Real.sqrt (q * (1 - q) / n + 0.25 * z * z / (n * n))) /
    (1 + z * z / n)

/-- The upper Wilson bound `(c + w) / d` of `ccheck.cc` before the percent
scaling. -/
noncomputable def wilsonUpper (q z n : ℝ) : ℝ :=
  (q + 0.5 * z * z / n + z * Real.sqrt (q * (1 - q) / n + 0.25 * z * z / (n * n))) /
    (1 + z * z / n)

/-- The triple printed by the summary for final counts `dirt` and `clean`,
over the exact reals: lower bound, point estimate and upper bound, as
percentages, with `z = 1.96` as in the source. -/
noncomputable def wilson (dirt clean : ℕ) : ℝ × ℝ × ℝ :=
  (100 * wilsonLower ((dirt : ℝ) / ((dirt : ℝ) + (clean : ℝ))) 1.96 ((dirt : ℝ) + (clean : ℝ)),
   100 * ((dirt : ℝ) / ((dirt : ℝ) + (clean : ℝ))),
   100 * wilsonUpper ((dirt : ℝ) / ((dirt : ℝ) + (clean : ℝ))) 1.96 ((dirt : ℝ) + (clean : ℝ)))

/-- A real number is at most the square root of any upper bound of its
square. -/
theorem le_sqrt_of_sq_le_sq (a b : ℝ) (h : a ^ 2 ≤ b) : a ≤ Real.sqrt b := by
  calc a ≤ |a| := le_abs_self a
  _ = Real.sqrt (a ^ 2) := (Real.sqrt_sq_eq_abs a).symm
  _ ≤ Real.sqrt b := Real.sqrt_le_sqrt h

/-- A square root is at most any nonnegative number whose square dominates the
radicand. -/
theorem sqrt_le_of_sq_ge (b a : ℝ) (ha : 0 ≤ a) (h : b ≤ a ^ 2) : Real.sqrt b ≤ a := by
  calc Real.sqrt b ≤ Real.sqrt (a ^ 2) := Real.sqrt_le_sqrt h
  _ = a := Real.sqrt_sq ha

set_option maxHeartbeats 2000000 in
/-- Ordering of the Wilson interval around the point estimate, stated over
opaque names for the intermediate quantities `c`, `d`, the radicand and the
square root, exactly as `ccheck.cc` computes them. -/
theorem wilson_core_abstract (q z n c dnm E s : ℝ) (hn : 0 < n) (hz : 0 ≤ z)
    (h0 : 0 ≤ q) (h1 : q ≤ 1)
    (hcdef : c = q + 0.5 * z * z / n) (hddef : dnm = 1 + z * z / n)
    (hEdef : E = q * (1 - q) / n + 0.25 * z * z / (n * n))
    (hsdef : s = Real.sqrt E) :
    0 ≤ (c - z * s) / dnm ∧ (c - z * s) / dnm ≤ q ∧
    q ≤ (c + z * s) / dnm ∧ (c + z * s) / dnm ≤ 1 := by
  have hn0 : n ≠ 0 := ne_of_gt hn
  have hzz : (0 : ℝ) ≤ z * z := mul_self_nonneg z
  have hE : 0 ≤ E := by
    rw [hEdef]
    have h2 : 0 ≤ q * (1 - q) := mul_nonneg h0 (by linarith)
    have h3 : (0 : ℝ) ≤ 0.25 * z * z := by nlinarith
    exact add_nonneg (div_nonneg h2 hn.le) (div_nonneg h3 (by nlinarith))
  have hs0 : 0 ≤ s := hsdef ▸ Real.sqrt_nonneg E
  have hs2 : s ^ 2 = E := by rw [hsdef]; exact Real.sq_sqrt hE
  have hdnm : 0 < dnm := by
    rw [hddef]
    have : 0 ≤ z * z / n := div_nonneg hzz hn.le
    linarith
  have hzs : Real.sqrt (z ^ 2 * E) = z * s := by
    rw [Real.sqrt_mul (sq_nonneg z) E, Real.sqrt_sq hz, hsdef]
  have hc0 : 0 ≤ c := by
    rw [hcdef]
    have : 0 ≤ 0.5 * z * z / n := div_nonneg (by nlinarith) hn.le
    linarith
  have key1 : z ^ 2 * E ≤ c ^ 2 := by
    have expand : c ^ 2 - z ^ 2 * E = q ^ 2 * (n + z * z) / n := by
      rw [hcdef, hEdef]; field_simp; ring
    have hq2 : 0 ≤ q ^ 2 * (n + z * z) / n :=
      div_nonneg (mul_nonneg (sq_nonneg q) (by nlinarith)) hn.le
    linarith [expand, hq2]
  have h1a : z * s ≤ c := by
    rw [← hzs]; exact sqrt_le_of_sq_ge _ _ hc0 key1
  have key2 : (c - q * dnm) ^ 2 ≤ z ^ 2 * E := by
    have expand2 : z ^ 2 * E - (c - q * dnm) ^ 2
        = z ^ 2 * (q * (1 - q)) * (n + z * z) / (n * n) := by
      rw [hcdef, hddef, hEdef]; field_simp; ring
    have hq2 : 0 ≤ z ^ 2 * (q * (1 - q)) * (n + z * z) / (n * n) := by
      apply div_nonneg
      · exact mul_nonneg (mul_nonneg (sq_nonneg z) (mul_nonneg h0 (by linarith)))
          (by nlinarith)
      · nlinarith
    linarith [expand2, hq2]
  have h2a : c - q * dnm ≤ z * s := by
    rw [← hzs]; exact le_sqrt_of_sq_le_sq _ _ key2
  have h3a : q * dnm - c ≤ z * s := by
    rw [← hzs]
    apply le_sqrt_of_sq_le_sq
    calc (q * dnm - c) ^ 2 = (c - q * dnm) ^ 2 := by ring
    _ ≤ z ^ 2 * E := key2
  have hc4 : 0 ≤ dnm - c := by
    have e4 : dnm - c = (1 - q) + 0.5 * z * z / n := by rw [hddef, hcdef]; ring
    have : 0 ≤ 0.5 * z * z / n := div_nonneg (by nlinarith) hn.le
    linarith [e4]
  have key4 : z ^ 2 * E ≤ (dnm - c) ^ 2 := by
    have expand4 : (dnm - c) ^ 2 - z ^ 2 * E = (1 - q) ^ 2 * (n + z * z) / n := by
      rw [hddef, hcdef, hEdef]; field_simp; ring
    have hq4 : 0 ≤ (1 - q) ^ 2 * (n + z * z) / n :=
      div_nonneg (mul_nonneg (sq_nonneg _) (by nlinarith)) hn.le
    linarith [expand4, hq4]
  have h4a : z * s ≤ dnm - c := by
    rw [← hzs]; exact sqrt_le_of_sq_ge _ _ hc4 key4
  refine ⟨div_nonneg (by linarith) hdnm.le, ?_, ?_, ?_⟩
  · rw [div_le_iff₀ hdnm]; linarith
  · rw [le_div_iff₀ hdnm]; linarith
  · rw [div_le_one hdnm]; linarith

/-- Ordering of the Wilson bounds of `ccheck.cc` around the point estimate. -/
theorem wilson_core (q z n : ℝ) (hn : 0 < n) (hz : 0 ≤ z) (h0 : 0 ≤ q) (h1 : q ≤ 1) :
    0 ≤ wilsonLower q z n ∧ wilsonLower q z n ≤ q ∧
    q ≤ wilsonUpper q z n ∧ wilsonUpper q z n ≤ 1 := by
  unfold wilsonLower wilsonUpper
  exact wilson_core_abstract q z n (q + 0.5 * z * z / n) (1 + z * z / n)
    (q * (1 - q) / n + 0.25 * z * z / (n * n))
    (Real.sqrt (q * (1 - q) / n + 0.25 * z * z / (n * n)))
    hn hz h0 h1 rfl rfl rfl rfl

set_option maxHeartbeats 4000000 in
/-- C1: the claim asserts that `align` succeeds whenever the true edit
distance is at most `maxDistance`, in particular at equality.  The code's
loop `for( d = 0 ; d != maxd ; ++d )` tries only the distances
`0 .. maxd - 1`: aligning `"A"` against `"C"` with `maxd = 1` returns the
overflow sentinel although their ambiguity-aware edit distance is exactly
`1 = maxd`, and aligning two empty sequences with `maxd = 5` (capped to 0)
returns the sentinel although their edit distance is `0 < maxd` — for every
content of the uninitialised table and of the output buffers. -/
theorem C1_maxd_boundary_bug :
    ∀ (junk : ℤ → ℕ → ℤ) (memA memB : ℤ → Char),
      (myers_diff junk ['A'] MyersMode.globally ['C'] 1 memA memB).dist = none
      ∧ levAmb ['A'] ['C'] = 1
      ∧ (myers_diff junk [] MyersMode.globally [] 5 memA memB).dist = none
      ∧ levAmb [] [] = 0 := by
  intro junk memA memB
  refine ⟨?_, by decide, ?_, by decide⟩ <;> with_unfolding_all rfl

set_option maxHeartbeats 4000000 in
/-- C2: the claim asserts that removing the gaps from the returned `seqB`
reproduces `B`.  Because the traceback writes both NUL terminators through
`out_a`, the buffer `bt_b` is never terminated: aligning `"AC"` against
`"AC"` (distance 0) into a `bt_b` buffer of the caller's size
`len + maxd + 1 = 4` whose prior content is `'T'` bytes leaves the string
`"ACCT"` in `bt_b` — the gapped row followed by stale bytes — so removing
gaps yields `"ACCT" ≠ "AC"`, while the `seqA` side round-trips correctly. -/
theorem C2_unterminated_seqB_bug :
    ∀ (junk : ℤ → ℕ → ℤ) (memA : ℤ → Char),
      (myers_diff junk ['A', 'C'] MyersMode.globally ['A', 'C'] 1 memA (fun _ => 'T')).dist
        = some 0
      ∧ degap (cstr (myers_diff junk ['A', 'C'] MyersMode.globally ['A', 'C'] 1 memA
          (fun _ => 'T')).memA 4) = ['A', 'C']
      ∧ degap (cstr (myers_diff junk ['A', 'C'] MyersMode.globally ['A', 'C'] 1 memA
          (fun _ => 'T')).memB 4) = ['A', 'C', 'C', 'T']
      ∧ (['A', 'C', 'C', 'T'] : List Char) ≠ ['A', 'C'] := by
  intro junk memA
  refine ⟨?_, ?_, ?_, by decide⟩ <;> with_unfolding_all rfl

/-- C3: the claim asserts that `mk_dp_list` keys every entry by the true
assembly coordinate of its column and records exactly the columns whose
coordinate lies in `[spanStart, spanEndExclusive)`, for every `spanStart`.
On the alignment `ref = "AC"`, `assembly = "GC"` with span `[1, 2)` the code
records the column `(A, G)` — whose true assembly coordinate is 0 — under the
key 1 and stops, whereas the claimed behaviour records nothing; with
`spanStart = 0` the two notions agree on this input. -/
theorem C3_span_offset_bug :
    mk_dp_list false ['A', 'C'] ['G', 'C'] 1 2 = [(1, ('A', 'G'))]
    ∧ mk_dp_list_spec false ['A', 'C'] ['G', 'C'] 1 2 = []
    ∧ mk_dp_list false ['A', 'C'] ['G', 'C'] 0 2
        = mk_dp_list_spec false ['A', 'C'] ['G', 'C'] 0 2 := by
  refine ⟨by decide, by decide, by decide⟩

/-- C4 counterexample: the claim asserts that `maybeClean` is the plain
ambiguity-aware match of the assembly base against the fragment base with no
deamination folding.  In ancient-DNA mode, assembly base `G` and fragment
base `A`, the classifier's `maybe_clean = consistent(true, 'G', 'A')` is
`true` (the assembly base is folded to `R`), while the plain match of `G`
against `A` is `false`; consequently the classifier classifies the position
`clean` with one vote where the claimed semantics would give `nonsense` with
no vote. -/
theorem C4_clean_folding_counterexample :
    consistent true 'G' 'A' = true
    ∧ match_chars 'G' 'A' = false
    ∧ classifyStep true 'A' 'G' 'T' 'G' 'A' 'A' whatsit.unknown 0 = (whatsit.clean, 1) := by
  refine ⟨by decide, by decide, by decide⟩

/-- C4 amended: for non-gap arguments, each consistency check of the
classifier equals the ambiguity-aware match after folding its first argument
(`G` to `R`, `C` to `Y`) when ancient-DNA mode is active — the folding is
applied to the assembly base in `maybe_clean` just as to the reference base
in `maybe_dirt`, not only to the reference base. -/
theorem C4_folded_consistency (adna : Bool) (x y : Char) (hx : x ≠ '-') (hy : y ≠ '-') :
    consistent adna x y = match_chars (if adna then fold2 x else x) y := by
  simp only [consistent, fold2, match_chars]
  simp [hx, hy]

/-- C4 amended, witness at ancient mode, assembly base `G`, fragment `A`. -/
theorem C4_folded_consistency_witness :
    (('G' : Char) ≠ '-') ∧ (('A' : Char) ≠ '-')
    ∧ consistent true 'G' 'A' = match_chars (if true then fold2 'G' else 'G') 'A' :=
  ⟨by decide, by decide, C4_folded_consistency true 'G' 'A' (by decide) (by decide)⟩

/-- C5: at a diagnostic column (here the diagnostic pair `A`/`G`) where the
fragment symbol agrees across its two alignments, the per-position update of
the classifier counts a vote exactly when exactly one of
`maybe_clean`/`maybe_dirt` holds, forces the class to `nonsense` whenever
both are false (whatever the current class), and leaves both the class and
the vote count unchanged when both are true. -/
theorem C5_vote_update_rules :
    ∀ (adna : Bool) (rB aB c : Char) (k : whatsit) (v : ℕ),
      classifyStep adna 'A' 'G' rB aB c c k v =
        (updateKlass (consistent adna aB c) (consistent adna rB c) k,
         voteStep (consistent adna aB c) (consistent adna rB c) v)
      ∧ (∀ mc md : Bool,
          voteStep mc md v =
            if (mc = true ∧ md = false) ∨ (md = true ∧ mc = false) then v + 1 else v)
      ∧ updateKlass false false k = nonsense
      ∧ updateKlass true true k = k
      ∧ voteStep true true v = v := by
  intro adna rB aB c k v
  refine ⟨?_, ?_, rfl, rfl, rfl⟩
  · unfold classifyStep
    rw [if_pos (by decide : is_diagnostic 'A' 'G' = true)]
    rw [if_neg (fun h => h rfl)]
  · intro mc md
    cases mc <;> cases md <;> simp [voteStep]

/-- C7 counterexample: the claim asserts that with `n = 0` the summary is
produced without dividing by `n` and without NaN-propagated values.  With
both final counts zero the `dirt` line of the summary divides `0.0` by
`0.0` and propagates the resulting non-finite values into all three printed
quantities. -/
theorem C7_nan_counterexample :
    wilson_print 0 0 = (none, none, none) := by
  simp [wilson_print, fadd, fdiv, fmul, fsub, fsqrt]

/-- C7 amended: whenever the final counts satisfy
`n = count(dirt) + count(clean) = 0`, the summary still evaluates the Wilson
formula, dividing by `n = 0`, and all three reported values are
NaN-propagated (undefined) rather than rendered as an explicit
"undefined" case. -/
theorem C7_nan_when_zero :
    ∀ d c : ℕ, d + c = 0 → wilson_print d c = (none, none, none) := by
  intro d c h
  have hd : d = 0 := by omega
  have hc : c = 0 := by omega
  subst hd; subst hc
  simp [wilson_print, fadd, fdiv, fmul, fsub, fsqrt]

/-- C7 amended, witness at both counts zero. -/
theorem C7_nan_when_zero_witness :
    (0 + 0 = 0) ∧ wilson_print 0 0 = (none, none, none) :=
  ⟨rfl, C7_nan_when_zero 0 0 rfl⟩

/-- C8 counterexample: the claim asserts that the transversion test accepts a
pair only if the two symbols lie in different purine/pyrimidine classes, in
particular for ambiguity codes such as `R` and `Y`.  The pair `(A, R)` —
both purine symbols — passes `is_transversion` and is admitted into the
diagnostic-position index under transversions-only filtering. -/
theorem C8_ambiguity_counterexample :
    is_transversion 'A' 'R' = true
    ∧ isPurineCode 'A' = true
    ∧ isPurineCode 'R' = true
    ∧ classChange 'A' 'R' = false
    ∧ mk_dp_list true ['A'] ['R'] 0 1 = [(0, ('A', 'R'))] := by
  refine ⟨by decide, by decide, by decide, by decide, by decide⟩

/-- C8 amended: on pairs of distinct plain bases `A`, `C`, `G`, `T` the
transversion test agrees exactly with the purine/pyrimidine class change;
for ambiguity codes it only checks that the second symbol differs from the
first symbol's transition partner, so same-class pairs such as `(A, R)` are
also accepted. -/
theorem C8_pure_bases_classify (a b : Char)
    (ha : a ∈ (['A', 'C', 'G', 'T'] : List Char))
    (hb : b ∈ (['A', 'C', 'G', 'T'] : List Char)) (hne : a ≠ b) :
    is_transversion a b = classChange a b := by
  fin_cases ha <;> fin_cases hb <;> first | decide | exact absurd rfl hne

/-- C8 amended, witness at the transversion pair `(A, C)`. -/
theorem C8_pure_bases_classify_witness :
    (('A' : Char) ∈ (['A', 'C', 'G', 'T'] : List Char))
    ∧ (('C' : Char) ∈ (['A', 'C', 'G', 'T'] : List Char))
    ∧ (('A' : Char) ≠ 'C')
    ∧ is_transversion 'A' 'C' = classChange 'A' 'C' :=
  ⟨by decide, by decide, by decide,
    C8_pure_bases_classify 'A' 'C' (by decide) (by decide) (by decide)⟩

/-- C9: for positive `n = count(dirt) + count(clean)`, the three percentages
printed by the summary — Wilson lower bound, point estimate, Wilson upper
bound with `z = 1.96` — satisfy `0 ≤ lower ≤ p ≤ upper ≤ 100`. -/
theorem C9_wilson_order :
    ∀ dirt clean : ℕ, 0 < dirt + clean →
      0 ≤ (wilson dirt clean).1
      ∧ (wilson dirt clean).1 ≤ (wilson dirt clean).2.1
      ∧ (wilson dirt clean).2.1 ≤ (wilson dirt clean).2.2
      ∧ (wilson dirt clean).2.2 ≤ 100 := by
  intro dirt clean h
  have hn : (0 : ℝ) < (dirt : ℝ) + (clean : ℝ) := by
    have h2 : (0 : ℝ) < ((dirt + clean : ℕ) : ℝ) := by exact_mod_cast h
    push_cast at h2
    linarith
  have h0 : 0 ≤ (dirt : ℝ) / ((dirt : ℝ) + (clean : ℝ)) :=
    div_nonneg (Nat.cast_nonneg dirt) hn.le
  have h1 : (dirt : ℝ) / ((dirt : ℝ) + (clean : ℝ)) ≤ 1 := by
    rw [div_le_one hn]
    have h3 : (0 : ℝ) ≤ (clean : ℝ) := Nat.cast_nonneg clean
    linarith
  obtain ⟨g1, g2, g3, g4⟩ :=
    wilson_core ((dirt : ℝ) / ((dirt : ℝ) + (clean : ℝ))) 1.96
      ((dirt : ℝ) + (clean : ℝ)) hn (by norm_num) h0 h1
  simp only [wilson]
  exact ⟨by linarith, by linarith, by linarith, by linarith⟩

/-- C9, witness at `dirt = 10`, `clean = 90`. -/
theorem C9_wilson_order_witness :
    0 < 10 + 90
    ∧ (0 ≤ (wilson 10 90).1
      ∧ (wilson 10 90).1 ≤ (wilson 10 90).2.1
      ∧ (wilson 10 90).2.1 ≤ (wilson 10 90).2.2
      ∧ (wilson 10 90).2.2 ≤ 100) :=
  ⟨by decide, C9_wilson_order 10 90 (by decide)⟩

/-- C10: processing a fragment whose segment tag is `'b'` only stores its
classification and vote count in the pending-pairs cache: the summary tally
of every class is unchanged, hence the contamination estimate computed from
the final `dirt`/`clean` counts is unchanged as well. -/
theorem C10_back_fragment_only_cached :
    ∀ (st : CCState) (id : String) (k : whatsit) (v : ℕ),
      (processFragment st 'b' id k v).summary = st.summary
      ∧ (processFragment st 'b' id k v).bfrags = insertAssoc id (k, v) st.bfrags
      ∧ wilson ((processFragment st 'b' id k v).summary dirt)
          ((processFragment st 'b' id k v).summary clean)
        = wilson (st.summary dirt) (st.summary clean) := by
  intro st id k v
  exact ⟨rfl, rfl, rfl⟩

set_option maxHeartbeats 4000000 in
/-- C6: the claim asserts that every write of the traceback, terminators
included, stays inside a buffer of capacity `len(A) + len(B) + d + 1`.
Aligning `"A"` against `"A"` succeeds with distance 0, and the traceback
writes the offsets `1`, `0` and `-1` into `bt_a` — two NUL terminators (both
erroneously through `out_a`) and then the single alignment column one byte
before the start of the buffer, outside `[0, 1 + 1 + 0 + 1)` — for every
content of the uninitialised table and of the output buffers. -/
theorem C6_buffer_underflow_bug :
    ∀ (junk : ℤ → ℕ → ℤ) (memA memB : ℤ → Char),
      (myers_diff junk ['A'] MyersMode.globally ['A'] 1 memA memB).dist = some 0
      ∧ (myers_diff junk ['A'] MyersMode.globally ['A'] 1 memA memB).wrA = [-1, 0, 1]
      ∧ ¬ (∀ i ∈ ([-1, 0, 1] : List ℤ), 0 ≤ i ∧ i < 1 + 1 + 0 + 1) := by
  intro junk memA memB
  refine ⟨?_, ?_, by decide⟩ <;> with_unfolding_all rfl
